import Mathlib

/-!
Verification of the ledger-demo-rs transaction engine.

Shallow embedding of the core sources:
  * `src/base.rs`             — identifier types (`ClientId`, `TransactionId`);
  * `src/transaction.rs`      — `TransactionType`, `TransactionStatus`;
  * `src/error.rs`            — `TransactionError`;
  * `src/account.rs`          — `DepositRecord`, `AccountData` and its five
    balance operations, and `Account::add_transaction`;
  * `src/transaction_queue.rs`— the global deduplication registry (modelled by
    its observable key set: the `DashMap` keys; the `SegQueue` order is
    unobservable through the engine API);
  * `src/engine.rs`           — `Engine::process`, `Engine::get_account`.

Monetary values (`rust_decimal::Decimal`) are modelled as rationals: the code
performs only addition, subtraction and comparison on them and never rounds
internally (rounding is a serialization concern, out of scope here).
`HashMap`/`DashMap` are modelled as association lists with replace-on-insert,
matching the observable lookup/insert behaviour.  Rust methods that mutate
`&mut self` behind a lock and may return early with an error are modelled as
`Except`-valued state transformers; every early `return Err` in the source
happens before any field mutation, so an error result leaves the state
unchanged, which the `Except` encoding reflects.
-/

deriving instance DecidableEq for Except

namespace Ledger

/-- `ClientId` wraps a `u16` in the source; only equality of identifiers is
used, so it is modelled as `Nat`. -/
abbrev ClientId := Nat

/-- `TransactionId` wraps a `u32` in the source; only equality is used. -/
abbrev TransactionId := Nat

/-- `TransactionStatus` from `src/transaction.rs`. -/
inductive TransactionStatus
  | Applied
  | Inflight
  | Resolved
  | Voided
deriving DecidableEq

/-- `TransactionError` from `src/error.rs`. -/
inductive TransactionError
  | MissingAmount
  | InvalidAmount
  | InsufficientFunds
  | TransactionNotFound
  | ClientMismatch
  | AlreadyDisputed
  | NotDisputed
  | NotDisputable
  | DuplicateTransaction
  | AccountLocked
deriving DecidableEq

/-- `TransactionType` from `src/transaction.rs`. -/
inductive TransactionType
  | Deposit (client_id : ClientId) (transaction_id : TransactionId)
      (amount : Rat) (status : TransactionStatus)
  | Withdrawal (client_id : ClientId) (transaction_id : TransactionId) (amount : Rat)
  | Dispute (client_id : ClientId) (transaction_id : TransactionId)
  | Resolve (client_id : ClientId) (transaction_id : TransactionId)
  | Chargeback (client_id : ClientId) (transaction_id : TransactionId)
deriving DecidableEq

/-- `TransactionType::id` from `src/transaction.rs`. -/
def TransactionType.id : TransactionType → TransactionId
  | .Deposit _ tx _ _ => tx
  | .Withdrawal _ tx _ => tx
  | .Dispute _ tx => tx
  | .Resolve _ tx => tx
  | .Chargeback _ tx => tx

/-- `TransactionType::client_id` from `src/transaction.rs`. -/
def TransactionType.client_id : TransactionType → ClientId
  | .Deposit c _ _ _ => c
  | .Withdrawal c _ _ => c
  | .Dispute c _ => c
  | .Resolve c _ => c
  | .Chargeback c _ => c

/-- Discriminates the monetary events (the `Deposit | Withdrawal` match arm of
`Engine::process` in `src/engine.rs`). -/
def TransactionType.isMonetary : TransactionType → Bool
  | .Deposit _ _ _ _ => true
  | .Withdrawal _ _ _ => true
  | _ => false

/-- `DepositRecord` from `src/account.rs`. -/
structure DepositRecord where
  amount : Rat
  status : TransactionStatus
deriving DecidableEq

/-- Association-list lookup, modelling `HashMap::get` / `DashMap::get`. -/
def alFind {α : Type} : List (Nat × α) → Nat → Option α
  | [], _ => none
  | (k, v) :: rest, k' => if k = k' then some v else alFind rest k'

/-- Association-list insert with replacement, modelling `HashMap::insert` /
the `DashMap` entry API (an existing key's value is overwritten). -/
def alInsert {α : Type} : List (Nat × α) → Nat → α → List (Nat × α)
  | [], k', v' => [(k', v')]
  | (k, v) :: rest, k', v' =>
      if k = k' then (k', v') :: rest else (k, v) :: alInsert rest k' v'

/-- In-place status update of the record stored at a key, modelling
`deposits.get_mut(&tx).unwrap().status = st` in `Account::add_transaction`. -/
def setStatus : List (TransactionId × DepositRecord) → TransactionId →
    TransactionStatus → List (TransactionId × DepositRecord)
  | [], _, _ => []
  | (k, r) :: rest, tx, st =>
      if k = tx then (k, { r with status := st }) :: rest
      else (k, r) :: setStatus rest tx st

/-- `AccountData` from `src/account.rs` (the state behind `Account`'s mutex). -/
structure AccountData where
  client_id : ClientId
  available : Rat
  held : Rat
  locked : Bool
  deposits : List (TransactionId × DepositRecord)
deriving DecidableEq

/-- `AccountData::new`. -/
def AccountData.new (c : ClientId) : AccountData :=
  { client_id := c, available := 0, held := 0, locked := false, deposits := [] }

/-- `AccountData::deposit`. -/
def AccountData.deposit (d : AccountData) (amount : Rat) :
    Except TransactionError AccountData :=
  if amount ≤ 0 then .error .InvalidAmount
  else if d.locked then .error .AccountLocked
  else .ok { d with available := d.available + amount }

/-- `AccountData::withdraw`. -/
def AccountData.withdraw (d : AccountData) (amount : Rat) :
    Except TransactionError AccountData :=
  if amount ≤ 0 then .error .InvalidAmount
  else if d.locked then .error .AccountLocked
  else if d.available < amount then .error .InsufficientFunds
  else .ok { d with available := d.available - amount }

/-- `AccountData::hold_funds`. -/
def AccountData.hold_funds (d : AccountData) (amount : Rat) :
    Except TransactionError AccountData :=
  if amount ≤ 0 then .error .InvalidAmount
  else if d.locked then .error .AccountLocked
  else if d.available < amount then .error .InsufficientFunds
  else .ok { d with available := d.available - amount, held := d.held + amount }

/-- `AccountData::release_funds`. -/
def AccountData.release_funds (d : AccountData) (amount : Rat) :
    Except TransactionError AccountData :=
  if amount ≤ 0 then .error .InvalidAmount
  else if d.locked then .error .AccountLocked
  else if d.held < amount then .error .InsufficientFunds
  else .ok { d with held := d.held - amount, available := d.available + amount }

/-- `AccountData::chargeback`. -/
def AccountData.chargeback (d : AccountData) (amount : Rat) :
    Except TransactionError AccountData :=
  if amount ≤ 0 then .error .InvalidAmount
  else if d.locked then .error .AccountLocked
  else if d.held < amount then .error .InsufficientFunds
  else .ok { d with held := d.held - amount, locked := true }

/-- `Account::total` from `src/account.rs`: returns `available + held`. -/
def AccountData.total (d : AccountData) : Rat :=
  d.available + d.held

/-- `Account::add_transaction` from `src/account.rs`. -/
def AccountData.add_transaction (d : AccountData) (t : TransactionType) :
    Except TransactionError AccountData :=
  if t.client_id ≠ d.client_id then .error .ClientMismatch
  else
    match t with
    | .Deposit _ tx amount _ =>
        match d.deposit amount with
        | .error e => .error e
        | .ok d1 =>
            .ok { d1 with deposits := alInsert d1.deposits tx ⟨amount, .Applied⟩ }
    | .Withdrawal _ _ amount => d.withdraw amount
    | .Dispute _ tx =>
        match alFind d.deposits tx with
        | none => .error .TransactionNotFound
        | some r =>
            if r.status ≠ .Applied then .error .AlreadyDisputed
            else
              match d.hold_funds r.amount with
              | .error e => .error e
              | .ok d1 => .ok { d1 with deposits := setStatus d1.deposits tx .Inflight }
    | .Resolve _ tx =>
        match alFind d.deposits tx with
        | none => .error .TransactionNotFound
        | some r =>
            if r.status ≠ .Inflight then .error .NotDisputed
            else
              match d.release_funds r.amount with
              | .error e => .error e
              | .ok d1 => .ok { d1 with deposits := setStatus d1.deposits tx .Resolved }
    | .Chargeback _ tx =>
        match alFind d.deposits tx with
        | none => .error .TransactionNotFound
        | some r =>
            if r.status ≠ .Inflight then .error .NotDisputed
            else
              match d.chargeback r.amount with
              | .error e => .error e
              | .ok d1 => .ok { d1 with deposits := setStatus d1.deposits tx .Voided }

/-- `Engine` from `src/engine.rs`.  The `transactions` field models the
`TransactionQueue` registry of `src/transaction_queue.rs` by its key set
(the keys of the dedup `DashMap`, in insertion order). -/
structure Engine where
  accounts : List (ClientId × AccountData)
  transactions : List TransactionId
deriving DecidableEq

/-- `Engine::new`. -/
def Engine.new : Engine :=
  { accounts := [], transactions := [] }

/-- `Engine::get_account`. -/
def Engine.get_account (e : Engine) (c : ClientId) : Option AccountData :=
  alFind e.accounts c

/-- `Engine::process` from `src/engine.rs`.  For monetary events the registry
is claimed first (`TransactionQueue::push`: occupied key fails with
`DuplicateTransaction`, vacant key is inserted); then the account is fetched or
created (`entry(..).or_insert_with`) and `add_transaction` is applied — on an
apply error the freshly inserted (or unchanged existing) account stays in the
map and the registry keeps the claimed identifier.  Non-monetary events
require the account to exist and never touch the registry. -/
def Engine.process (e : Engine) (t : TransactionType) :
    Engine × Except TransactionError Unit :=
  if t.isMonetary = true then
    if t.id ∈ e.transactions then (e, .error .DuplicateTransaction)
    else
      let reg' := e.transactions ++ [t.id]
      let acct := (alFind e.accounts t.client_id).getD (AccountData.new t.client_id)
      match acct.add_transaction t with
      | .ok a2 => (⟨alInsert e.accounts t.client_id a2, reg'⟩, .ok ())
      | .error err => (⟨alInsert e.accounts t.client_id acct, reg'⟩, .error err)
  else
    match alFind e.accounts t.client_id with
    | none => (e, .error .TransactionNotFound)
    | some acct =>
      match acct.add_transaction t with
      | .ok a2 => (⟨alInsert e.accounts t.client_id a2, e.transactions⟩, .ok ())
      | .error err => (e, .error err)

/-- Processes a list of events in order, starting from `e`. -/
def runFrom (e : Engine) : List TransactionType → Engine
  | [] => e
  | t :: ts => runFrom (e.process t).1 ts

/-- Processes a list of events on a fresh engine. -/
def runEvents (evs : List TransactionType) : Engine :=
  runFrom Engine.new evs

/-- Contribution of one deposit record to the held balance: its amount while
the record is under dispute (`Inflight`), zero otherwise. -/
def recInflight (r : DepositRecord) : Rat :=
  match r.status with
  | .Inflight => r.amount
  | _ => 0

/-- Sum of the amounts of the `Inflight` deposit records of an account
(the quantity that spec invariant I5 equates with `held`). -/
def sumInflight : List (TransactionId × DepositRecord) → Rat
  | [] => 0
  | (_, r) :: rest => recInflight r + sumInflight rest

/-- Invariant of one account as stored in the engine under registry `reg` at
key `c`: the stored client identifier matches the key, both balances are
non-negative, the held balance equals the sum of the `Inflight` record
amounts, and every deposit record has a positive amount and a registered
transaction identifier. -/
def GoodAccount (reg : List TransactionId) (c : ClientId) (d : AccountData) : Prop :=
  d.client_id = c ∧ 0 ≤ d.available ∧ 0 ≤ d.held ∧
  sumInflight d.deposits = d.held ∧
  ∀ p ∈ d.deposits, 0 < p.2.amount ∧ p.1 ∈ reg

/-- Invariant of the whole engine: every stored account is good. -/
def GoodEngine (e : Engine) : Prop :=
  ∀ c d, alFind e.accounts c = some d → GoodAccount e.transactions c d

/-- True exactly on the `DuplicateTransaction` error result. -/
def isDupErr : Except TransactionError Unit → Bool
  | .error .DuplicateTransaction => true
  | _ => false

/-- Whether some event of the list, processed in sequence from engine `e`, is a
monetary event for client `c` whose registry claim succeeds (that is, which is
not rejected as `DuplicateTransaction`); such an event is exactly one whose
processing creates (or re-touches) the account for `c`. -/
def claimedFrom (c : ClientId) : Engine → List TransactionType → Bool
  | _, [] => false
  | e, t :: ts =>
      (t.isMonetary && (t.client_id == c) && !(isDupErr (e.process t).2)) ||
        claimedFrom c (e.process t).1 ts

theorem alFind_alInsert_self {α : Type} (l : List (Nat × α)) (k : Nat) (v : α) :
    alFind (alInsert l k v) k = some v := by
  induction l with
  | nil => simp [alInsert, alFind]
  | cons p rest ih =>
    obtain ⟨k0, v0⟩ := p
    by_cases h : k0 = k
    · simp [alInsert, h, alFind]
    · simp [alInsert, h, alFind, ih]

theorem alFind_alInsert_ne {α : Type} {l : List (Nat × α)} {k k' : Nat} (v : α)
    (h : k' ≠ k) : alFind (alInsert l k v) k' = alFind l k' := by
  induction l with
  | nil => simp [alInsert, alFind, Ne.symm h]
  | cons p rest ih =>
    obtain ⟨k0, v0⟩ := p
    by_cases hk : k0 = k
    · subst hk
      simp [alInsert, alFind, Ne.symm h]
    · simp only [alInsert, if_neg hk, alFind]
      by_cases hk' : k0 = k'
      · simp [hk']
      · simp [hk', ih]

theorem alFind_mem {α : Type} {l : List (Nat × α)} {k : Nat} {v : α}
    (h : alFind l k = some v) : (k, v) ∈ l := by
  induction l with
  | nil => simp [alFind] at h
  | cons p rest ih =>
    obtain ⟨k0, v0⟩ := p
    by_cases hk : k0 = k
    · subst hk
      simp [alFind] at h
      simp [h]
    · simp only [alFind, if_neg hk] at h
      exact List.mem_cons_of_mem _ (ih h)

theorem mem_alInsert {α : Type} {l : List (Nat × α)} {k : Nat} {v : α}
    {p : Nat × α} (h : p ∈ alInsert l k v) : p = (k, v) ∨ p ∈ l := by
  induction l with
  | nil => simpa [alInsert] using h
  | cons q rest ih =>
    obtain ⟨k0, v0⟩ := q
    by_cases hk : k0 = k
    · simp only [alInsert, if_pos hk] at h
      rcases List.mem_cons.mp h with h | h
      · exact Or.inl h
      · exact Or.inr (List.mem_cons_of_mem _ h)
    · simp only [alInsert, if_neg hk] at h
      rcases List.mem_cons.mp h with h | h
      · exact Or.inr (by simp [h])
      · rcases ih h with h | h
        · exact Or.inl h
        · exact Or.inr (List.mem_cons_of_mem _ h)

theorem alFind_setStatus_self {l : List (TransactionId × DepositRecord)}
    {tx : TransactionId} {r : DepositRecord} (st : TransactionStatus)
    (h : alFind l tx = some r) :
    alFind (setStatus l tx st) tx = some ⟨r.amount, st⟩ := by
  induction l with
  | nil => simp [alFind] at h
  | cons p rest ih =>
    obtain ⟨k0, r0⟩ := p
    by_cases hk : k0 = tx
    · subst hk
      simp [alFind] at h
      simp [setStatus, alFind, h]
    · simp only [alFind, if_neg hk] at h
      simp [setStatus, if_neg hk, alFind, hk, ih h]

theorem alFind_setStatus_ne {l : List (TransactionId × DepositRecord)}
    {tx tx' : TransactionId} (st : TransactionStatus) (h : tx' ≠ tx) :
    alFind (setStatus l tx st) tx' = alFind l tx' := by
  induction l with
  | nil => simp [setStatus]
  | cons p rest ih =>
    obtain ⟨k0, r0⟩ := p
    by_cases hk : k0 = tx
    · subst hk
      simp [setStatus, alFind, Ne.symm h]
    · simp only [setStatus, if_neg hk, alFind]
      by_cases hk' : k0 = tx'
      · simp [hk']
      · simp [hk', ih]

theorem mem_setStatus {l : List (TransactionId × DepositRecord)}
    {tx : TransactionId} {st : TransactionStatus}
    {p : TransactionId × DepositRecord} (h : p ∈ setStatus l tx st) :
    ∃ r0, (p.1, r0) ∈ l ∧ p.2.amount = r0.amount := by
  induction l with
  | nil => simp [setStatus] at h
  | cons q rest ih =>
    obtain ⟨k0, r0⟩ := q
    by_cases hk : k0 = tx
    · simp only [setStatus, if_pos hk] at h
      rcases List.mem_cons.mp h with h | h
      · exact ⟨r0, by simp [h], by simp [h]⟩
      · exact ⟨p.2, List.mem_cons_of_mem _ (by simp [h]), rfl⟩
    · simp only [setStatus, if_neg hk] at h
      rcases List.mem_cons.mp h with h | h
      · exact ⟨r0, by simp [h], by simp [h]⟩
      · obtain ⟨r1, hr1, he⟩ := ih h
        exact ⟨r1, List.mem_cons_of_mem _ hr1, he⟩

theorem recInflight_nonneg {r : DepositRecord} (h : 0 ≤ r.amount) :
    0 ≤ recInflight r := by
  unfold recInflight
  split
  · exact h
  · exact le_refl 0

theorem sumInflight_nonneg {l : List (TransactionId × DepositRecord)}
    (h : ∀ p ∈ l, 0 ≤ p.2.amount) : 0 ≤ sumInflight l := by
  induction l with
  | nil => simp [sumInflight]
  | cons p rest ih =>
    have h1 : 0 ≤ recInflight p.2 := recInflight_nonneg (h p (List.mem_cons_self _ _))
    have h2 : 0 ≤ sumInflight rest := ih fun q hq => h q (List.mem_cons_of_mem _ hq)
    obtain ⟨k0, r0⟩ := p
    simpa [sumInflight] using add_nonneg h1 h2

theorem sumInflight_alInsert_none {l : List (TransactionId × DepositRecord)}
    {tx : TransactionId} (r : DepositRecord) (h : alFind l tx = none) :
    sumInflight (alInsert l tx r) = sumInflight l + recInflight r := by
  induction l with
  | nil => simp [alInsert, sumInflight]
  | cons p rest ih =>
    obtain ⟨k0, r0⟩ := p
    by_cases hk : k0 = tx
    · simp [alFind, hk] at h
    · simp only [alFind, if_neg hk] at h
      simp only [alInsert, if_neg hk, sumInflight, ih h]
      ring

theorem sumInflight_setStatus {l : List (TransactionId × DepositRecord)}
    {tx : TransactionId} {r : DepositRecord} (st : TransactionStatus)
    (h : alFind l tx = some r) :
    sumInflight (setStatus l tx st) =
      sumInflight l - recInflight r + recInflight ⟨r.amount, st⟩ := by
  induction l with
  | nil => simp [alFind] at h
  | cons p rest ih =>
    obtain ⟨k0, r0⟩ := p
    by_cases hk : k0 = tx
    · subst hk
      simp only [alFind, if_true, eq_self_iff_true, Option.some.injEq] at h
      subst h
      simp only [setStatus, if_true, eq_self_iff_true, sumInflight]
      have hre : recInflight { r0 with status := st } = recInflight ⟨r0.amount, st⟩ := rfl
      rw [hre]
      ring
    · simp only [alFind, if_neg hk] at h
      simp only [setStatus, if_neg hk, sumInflight, ih h]
      ring

theorem le_sumInflight {l : List (TransactionId × DepositRecord)}
    {tx : TransactionId} {r : DepositRecord}
    (hf : alFind l tx = some r) (hst : r.status = .Inflight)
    (hpos : ∀ p ∈ l, 0 ≤ p.2.amount) : r.amount ≤ sumInflight l := by
  induction l with
  | nil => simp [alFind] at hf
  | cons p rest ih =>
    obtain ⟨k0, r0⟩ := p
    by_cases hk : k0 = tx
    · subst hk
      simp only [alFind, if_true, eq_self_iff_true, Option.some.injEq] at hf
      subst hf
      have h2 : 0 ≤ sumInflight rest :=
        sumInflight_nonneg fun q hq => hpos q (List.mem_cons_of_mem _ hq)
      have hre : recInflight r0 = r0.amount := by simp [recInflight, hst]
      simp only [sumInflight, hre]
      linarith
    · simp only [alFind, if_neg hk] at hf
      have h1 : 0 ≤ recInflight r0 :=
        recInflight_nonneg (hpos (k0, r0) (List.mem_cons_self _ _))
      have h2 := ih hf fun q hq => hpos q (List.mem_cons_of_mem _ hq)
      simp only [sumInflight]
      linarith

theorem deposit_ok {d d' : AccountData} {c : ClientId} {tx : TransactionId}
    {amount : Rat} {st : TransactionStatus}
    (h : d.add_transaction (.Deposit c tx amount st) = .ok d') :
    c = d.client_id ∧ 0 < amount ∧ d.locked = false ∧
      d' = { d with
             available := d.available + amount
             deposits := alInsert d.deposits tx ⟨amount, .Applied⟩ } := by
  have h0 : (if c ≠ d.client_id then (Except.error TransactionError.ClientMismatch :
        Except TransactionError AccountData)
      else
        match d.deposit amount with
        | Except.error e => Except.error e
        | Except.ok d1 =>
            Except.ok { d1 with deposits := alInsert d1.deposits tx ⟨amount, .Applied⟩ }) =
      Except.ok d' := h
  by_cases hc : c = d.client_id
  · rw [if_neg (by simp [hc])] at h0
    cases hh : d.deposit amount with
    | error e => rw [hh] at h0; exact absurd h0 (by simp)
    | ok d1 =>
      rw [hh] at h0
      simp only [Except.ok.injEq] at h0
      unfold AccountData.deposit at hh
      split at hh
      · exact absurd hh (by simp)
      next hna =>
        split at hh
        · exact absurd hh (by simp)
        next hlk =>
          simp only [Except.ok.injEq] at hh
          have hlf : d.locked = false := by simpa using hlk
          refine ⟨hc, lt_of_not_le hna, hlf, ?_⟩
          subst h0
          rw [← hh]
  · rw [if_pos hc] at h0
    exact absurd h0 (by simp)

theorem withdraw_ok {d d' : AccountData} {c : ClientId} {tx : TransactionId}
    {amount : Rat}
    (h : d.add_transaction (.Withdrawal c tx amount) = .ok d') :
    c = d.client_id ∧ 0 < amount ∧ d.locked = false ∧ amount ≤ d.available ∧
      d' = { d with available := d.available - amount } := by
  have h0 : (if c ≠ d.client_id then (Except.error TransactionError.ClientMismatch :
        Except TransactionError AccountData)
      else d.withdraw amount) = Except.ok d' := h
  by_cases hc : c = d.client_id
  · rw [if_neg (by simp [hc])] at h0
    unfold AccountData.withdraw at h0
    split at h0
    · exact absurd h0 (by simp)
    next hna =>
      split at h0
      · exact absurd h0 (by simp)
      next hlk =>
        split at h0
        · exact absurd h0 (by simp)
        next hav =>
          simp only [Except.ok.injEq] at h0
          have hlf : d.locked = false := by simpa using hlk
          exact ⟨hc, lt_of_not_le hna, hlf, le_of_not_lt hav, h0.symm⟩
  · rw [if_pos hc] at h0
    exact absurd h0 (by simp)

theorem dispute_ok {d d' : AccountData} {c : ClientId} {tx : TransactionId}
    (h : d.add_transaction (.Dispute c tx) = .ok d') :
    ∃ r, alFind d.deposits tx = some r ∧ r.status = .Applied ∧ c = d.client_id ∧
      0 < r.amount ∧ d.locked = false ∧ r.amount ≤ d.available ∧
      d' = { d with
             available := d.available - r.amount
             held := d.held + r.amount
             deposits := setStatus d.deposits tx .Inflight } := by
  have h0 : (if c ≠ d.client_id then (Except.error TransactionError.ClientMismatch :
        Except TransactionError AccountData)
      else
        match alFind d.deposits tx with
        | none => Except.error TransactionError.TransactionNotFound
        | some r =>
            if r.status ≠ TransactionStatus.Applied then
              Except.error TransactionError.AlreadyDisputed
            else
              match d.hold_funds r.amount with
              | Except.error e => Except.error e
              | Except.ok d1 =>
                  Except.ok { d1 with deposits := setStatus d1.deposits tx .Inflight }) =
      Except.ok d' := h
  by_cases hc : c = d.client_id
  · rw [if_neg (by simp [hc])] at h0
    cases hfind : alFind d.deposits tx with
    | none => rw [hfind] at h0; exact absurd h0 (by simp)
    | some r =>
      rw [hfind] at h0
      have h1 : (if r.status ≠ TransactionStatus.Applied then
            (Except.error TransactionError.AlreadyDisputed : Except TransactionError AccountData)
          else
            match d.hold_funds r.amount with
            | Except.error e => Except.error e
            | Except.ok d1 =>
                Except.ok { d1 with deposits := setStatus d1.deposits tx .Inflight }) =
          Except.ok d' := h0
      by_cases hst : r.status = TransactionStatus.Applied
      · rw [if_neg (by simp [hst])] at h1
        cases hh : d.hold_funds r.amount with
        | error e => rw [hh] at h1; exact absurd h1 (by simp)
        | ok d1 =>
          rw [hh] at h1
          simp only [Except.ok.injEq] at h1
          unfold AccountData.hold_funds at hh
          split at hh
          · exact absurd hh (by simp)
          next hna =>
            split at hh
            · exact absurd hh (by simp)
            next hlk =>
              split at hh
              · exact absurd hh (by simp)
              next hbal =>
                simp only [Except.ok.injEq] at hh
                have hlf : d.locked = false := by simpa using hlk
                refine ⟨r, rfl, hst, hc, lt_of_not_le hna, hlf, le_of_not_lt hbal, ?_⟩
                subst h1
                rw [← hh]
      · rw [if_pos hst] at h1
        exact absurd h1 (by simp)
  · rw [if_pos hc] at h0
    exact absurd h0 (by simp)

theorem resolve_ok {d d' : AccountData} {c : ClientId} {tx : TransactionId}
    (h : d.add_transaction (.Resolve c tx) = .ok d') :
    ∃ r, alFind d.deposits tx = some r ∧ r.status = .Inflight ∧ c = d.client_id ∧
      0 < r.amount ∧ d.locked = false ∧ r.amount ≤ d.held ∧
      d' = { d with
             held := d.held - r.amount
             available := d.available + r.amount
             deposits := setStatus d.deposits tx .Resolved } := by
  have h0 : (if c ≠ d.client_id then (Except.error TransactionError.ClientMismatch :
        Except TransactionError AccountData)
      else
        match alFind d.deposits tx with
        | none => Except.error TransactionError.TransactionNotFound
        | some r =>
            if r.status ≠ TransactionStatus.Inflight then
              Except.error TransactionError.NotDisputed
            else
              match d.release_funds r.amount with
              | Except.error e => Except.error e
              | Except.ok d1 =>
                  Except.ok { d1 with deposits := setStatus d1.deposits tx .Resolved }) =
      Except.ok d' := h
  by_cases hc : c = d.client_id
  · rw [if_neg (by simp [hc])] at h0
    cases hfind : alFind d.deposits tx with
    | none => rw [hfind] at h0; exact absurd h0 (by simp)
    | some r =>
      rw [hfind] at h0
      have h1 : (if r.status ≠ TransactionStatus.Inflight then
            (Except.error TransactionError.NotDisputed : Except TransactionError AccountData)
          else
            match d.release_funds r.amount with
            | Except.error e => Except.error e
            | Except.ok d1 =>
                Except.ok { d1 with deposits := setStatus d1.deposits tx .Resolved }) =
          Except.ok d' := h0
      by_cases hst : r.status = TransactionStatus.Inflight
      · rw [if_neg (by simp [hst])] at h1
        cases hh : d.release_funds r.amount with
        | error e => rw [hh] at h1; exact absurd h1 (by simp)
        | ok d1 =>
          rw [hh] at h1
          simp only [Except.ok.injEq] at h1
          unfold AccountData.release_funds at hh
          split at hh
          · exact absurd hh (by simp)
          next hna =>
            split at hh
            · exact absurd hh (by simp)
            next hlk =>
              split at hh
              · exact absurd hh (by simp)
              next hbal =>
                simp only [Except.ok.injEq] at hh
                have hlf : d.locked = false := by simpa using hlk
                refine ⟨r, rfl, hst, hc, lt_of_not_le hna, hlf, le_of_not_lt hbal, ?_⟩
                subst h1
                rw [← hh]
      · rw [if_pos hst] at h1
        exact absurd h1 (by simp)
  · rw [if_pos hc] at h0
    exact absurd h0 (by simp)

theorem chargeback_ok {d d' : AccountData} {c : ClientId} {tx : TransactionId}
    (h : d.add_transaction (.Chargeback c tx) = .ok d') :
    ∃ r, alFind d.deposits tx = some r ∧ r.status = .Inflight ∧ c = d.client_id ∧
      0 < r.amount ∧ d.locked = false ∧ r.amount ≤ d.held ∧
      d' = { d with
             held := d.held - r.amount
             locked := true
             deposits := setStatus d.deposits tx .Voided } := by
  have h0 : (if c ≠ d.client_id then (Except.error TransactionError.ClientMismatch :
        Except TransactionError AccountData)
      else
        match alFind d.deposits tx with
        | none => Except.error TransactionError.TransactionNotFound
        | some r =>
            if r.status ≠ TransactionStatus.Inflight then
              Except.error TransactionError.NotDisputed
            else
              match d.chargeback r.amount with
              | Except.error e => Except.error e
              | Except.ok d1 =>
                  Except.ok { d1 with deposits := setStatus d1.deposits tx .Voided }) =
      Except.ok d' := h
  by_cases hc : c = d.client_id
  · rw [if_neg (by simp [hc])] at h0
    cases hfind : alFind d.deposits tx with
    | none => rw [hfind] at h0; exact absurd h0 (by simp)
    | some r =>
      rw [hfind] at h0
      have h1 : (if r.status ≠ TransactionStatus.Inflight then
            (Except.error TransactionError.NotDisputed : Except TransactionError AccountData)
          else
            match d.chargeback r.amount with
            | Except.error e => Except.error e
            | Except.ok d1 =>
                Except.ok { d1 with deposits := setStatus d1.deposits tx .Voided }) =
          Except.ok d' := h0
      by_cases hst : r.status = TransactionStatus.Inflight
      · rw [if_neg (by simp [hst])] at h1
        cases hh : d.chargeback r.amount with
        | error e => rw [hh] at h1; exact absurd h1 (by simp)
        | ok d1 =>
          rw [hh] at h1
          simp only [Except.ok.injEq] at h1
          unfold AccountData.chargeback at hh
          split at hh
          · exact absurd hh (by simp)
          next hna =>
            split at hh
            · exact absurd hh (by simp)
            next hlk =>
              split at hh
              · exact absurd hh (by simp)
              next hbal =>
                simp only [Except.ok.injEq] at hh
                have hlf : d.locked = false := by simpa using hlk
                refine ⟨r, rfl, hst, hc, lt_of_not_le hna, hlf, le_of_not_lt hbal, ?_⟩
                subst h1
                rw [← hh]
      · rw [if_pos hst] at h1
        exact absurd h1 (by simp)
  · rw [if_pos hc] at h0
    exact absurd h0 (by simp)

theorem deposit_ne_dup (d : AccountData) (a : Rat) :
    d.deposit a ≠ .error .DuplicateTransaction := by
  unfold AccountData.deposit
  split
  · simp
  · split
    · simp
    · simp

theorem withdraw_ne_dup (d : AccountData) (a : Rat) :
    d.withdraw a ≠ .error .DuplicateTransaction := by
  unfold AccountData.withdraw
  split
  · simp
  · split
    · simp
    · split
      · simp
      · simp

theorem hold_funds_ne_dup (d : AccountData) (a : Rat) :
    d.hold_funds a ≠ .error .DuplicateTransaction := by
  unfold AccountData.hold_funds
  split
  · simp
  · split
    · simp
    · split
      · simp
      · simp

theorem release_funds_ne_dup (d : AccountData) (a : Rat) :
    d.release_funds a ≠ .error .DuplicateTransaction := by
  unfold AccountData.release_funds
  split
  · simp
  · split
    · simp
    · split
      · simp
      · simp

theorem chargeback_ne_dup (d : AccountData) (a : Rat) :
    d.chargeback a ≠ .error .DuplicateTransaction := by
  unfold AccountData.chargeback
  split
  · simp
  · split
    · simp
    · split
      · simp
      · simp

theorem add_transaction_ne_dup (d : AccountData) (t : TransactionType) :
    d.add_transaction t ≠ .error .DuplicateTransaction := by
  unfold AccountData.add_transaction
  split
  · simp
  · split
    · cases hh : AccountData.deposit d _ with
      | error e =>
        simp only [hh]
        intro hcontra
        simp only [Except.error.injEq] at hcontra
        exact deposit_ne_dup d _ (hcontra ▸ hh)
      | ok d1 => simp [hh]
    · exact withdraw_ne_dup d _
    · cases hf : alFind d.deposits _ with
      | none => simp [hf]
      | some r =>
        simp only [hf]
        split
        · simp
        · cases hh : AccountData.hold_funds d r.amount with
          | error e =>
            simp only [hh]
            intro hcontra
            simp only [Except.error.injEq] at hcontra
            exact hold_funds_ne_dup d _ (hcontra ▸ hh)
          | ok d1 => simp [hh]
    · cases hf : alFind d.deposits _ with
      | none => simp [hf]
      | some r =>
        simp only [hf]
        split
        · simp
        · cases hh : AccountData.release_funds d r.amount with
          | error e =>
            simp only [hh]
            intro hcontra
            simp only [Except.error.injEq] at hcontra
            exact release_funds_ne_dup d _ (hcontra ▸ hh)
          | ok d1 => simp [hh]
    · cases hf : alFind d.deposits _ with
      | none => simp [hf]
      | some r =>
        simp only [hf]
        split
        · simp
        · cases hh : AccountData.chargeback d r.amount with
          | error e =>
            simp only [hh]
            intro hcontra
            simp only [Except.error.injEq] at hcontra
            exact chargeback_ne_dup d _ (hcontra ▸ hh)
          | ok d1 => simp [hh]

theorem add_transaction_locked {d : AccountData} (hl : d.locked = true)
    (t : TransactionType) (d' : AccountData) : d.add_transaction t ≠ .ok d' := by
  intro h
  cases t with
  | Deposit c tx amount st => exact absurd (deposit_ok h).2.2.1 (by simp [hl])
  | Withdrawal c tx amount => exact absurd (withdraw_ok h).2.2.1 (by simp [hl])
  | Dispute c tx =>
    obtain ⟨r, -, -, -, -, hlk, -, -⟩ := dispute_ok h
    exact absurd hlk (by simp [hl])
  | Resolve c tx =>
    obtain ⟨r, -, -, -, -, hlk, -, -⟩ := resolve_ok h
    exact absurd hlk (by simp [hl])
  | Chargeback c tx =>
    obtain ⟨r, -, -, -, -, hlk, -, -⟩ := chargeback_ok h
    exact absurd hlk (by simp [hl])

theorem process_dup {e : Engine} {t : TransactionType} (hm : t.isMonetary = true)
    (hmem : t.id ∈ e.transactions) :
    e.process t = (e, .error .DuplicateTransaction) := by
  simp [Engine.process, hm, hmem]

theorem process_fresh_transactions {e : Engine} {t : TransactionType}
    (hm : t.isMonetary = true) (hmem : t.id ∉ e.transactions) :
    (e.process t).1.transactions = e.transactions ++ [t.id] := by
  simp only [Engine.process, hm, if_true]
  rw [if_neg hmem]
  cases hr : AccountData.add_transaction
      ((alFind e.accounts t.client_id).getD (AccountData.new t.client_id)) t with
  | ok a2 => simp [hr]
  | error err => simp [hr]

theorem process_fresh_accounts {e : Engine} {t : TransactionType}
    (hm : t.isMonetary = true) (hmem : t.id ∉ e.transactions) :
    (e.process t).1.accounts =
      alInsert e.accounts t.client_id
        (match AccountData.add_transaction
            ((alFind e.accounts t.client_id).getD (AccountData.new t.client_id)) t with
         | .ok a2 => a2
         | .error _ => (alFind e.accounts t.client_id).getD (AccountData.new t.client_id)) := by
  simp only [Engine.process, hm, if_true]
  rw [if_neg hmem]
  cases hr : AccountData.add_transaction
      ((alFind e.accounts t.client_id).getD (AccountData.new t.client_id)) t with
  | ok a2 => simp [hr]
  | error err => simp [hr]

theorem process_fresh_mem {e : Engine} {t : TransactionType}
    (hm : t.isMonetary = true) (hmem : t.id ∉ e.transactions) :
    t.id ∈ (e.process t).1.transactions := by
  rw [process_fresh_transactions hm hmem]
  exact List.mem_append_right _ (List.mem_singleton_self _)

theorem process_nonmonetary_transactions {e : Engine} {t : TransactionType}
    (hm : t.isMonetary = false) :
    (e.process t).1.transactions = e.transactions := by
  cases hf : alFind e.accounts t.client_id with
  | none => simp [Engine.process, hm, hf]
  | some acct =>
    cases hr : acct.add_transaction t with
    | ok a2 => simp [Engine.process, hm, hf, hr]
    | error err => simp [Engine.process, hm, hf, hr]

theorem process_registry_mono (e : Engine) (t : TransactionType) :
    ∀ x ∈ e.transactions, x ∈ (e.process t).1.transactions := by
  intro x hx
  by_cases hm : t.isMonetary = true
  · by_cases hmem : t.id ∈ e.transactions
    · rw [process_dup hm hmem]
      exact hx
    · rw [process_fresh_transactions hm hmem]
      exact List.mem_append_left _ hx
  · rw [process_nonmonetary_transactions (by simpa using hm)]
    exact hx

theorem runFrom_registry_mono (evs : List TransactionType) :
    ∀ (e : Engine) (x : TransactionId),
      x ∈ e.transactions → x ∈ (runFrom e evs).transactions := by
  induction evs with
  | nil => intro e x hx; exact hx
  | cons t ts ih =>
    intro e x hx
    exact ih _ x (process_registry_mono e t x hx)

theorem process_fresh_ne_dup {e : Engine} {t : TransactionType}
    (hm : t.isMonetary = true) (hmem : t.id ∉ e.transactions) :
    (e.process t).2 ≠ .error .DuplicateTransaction := by
  simp only [Engine.process, hm, if_true]
  rw [if_neg hmem]
  cases hr : AccountData.add_transaction
      ((alFind e.accounts t.client_id).getD (AccountData.new t.client_id)) t with
  | ok a2 => simp [hr]
  | error err =>
    simp only [hr]
    intro hco
    simp only [Except.error.injEq] at hco
    exact add_transaction_ne_dup _ t (hco ▸ hr)

theorem process_dup_iff {e : Engine} {t : TransactionType} (hm : t.isMonetary = true) :
    (e.process t).2 = .error .DuplicateTransaction ↔ t.id ∈ e.transactions := by
  constructor
  · intro h
    by_contra hmem
    exact process_fresh_ne_dup hm hmem h
  · intro hmem
    rw [process_dup hm hmem]

theorem runFrom_append (l1 l2 : List TransactionType) (e : Engine) :
    runFrom e (l1 ++ l2) = runFrom (runFrom e l1) l2 := by
  induction l1 generalizing e with
  | nil => rfl
  | cons t ts ih => simpa [runFrom] using ih (e.process t).1

theorem goodAccount_mono {reg reg' : List TransactionId} {c : ClientId}
    {d : AccountData} (hsub : ∀ x ∈ reg, x ∈ reg')
    (hg : GoodAccount reg c d) : GoodAccount reg' c d := by
  obtain ⟨h1, h2, h3, h4, h5⟩ := hg
  exact ⟨h1, h2, h3, h4, fun p hp => ⟨(h5 p hp).1, hsub _ (h5 p hp).2⟩⟩

theorem goodAccount_new (reg : List TransactionId) (c : ClientId) :
    GoodAccount reg c (AccountData.new c) := by
  refine ⟨rfl, le_refl 0, le_refl 0, rfl, ?_⟩
  intro p hp
  simp [AccountData.new] at hp

theorem good_add_transaction {reg reg' : List TransactionId} {c : ClientId}
    {d d' : AccountData} {t : TransactionType}
    (hg : GoodAccount reg c d)
    (hsub : ∀ x ∈ reg, x ∈ reg')
    (hid : ∀ cc tx amount st, t = .Deposit cc tx amount st → tx ∈ reg' ∧ tx ∉ reg)
    (hok : d.add_transaction t = .ok d') :
    GoodAccount reg' c d' := by
  obtain ⟨hcl, hav, hhe, hsum, hrec⟩ := hg
  cases t with
  | Deposit cc tx amount st =>
    obtain ⟨hc, hpos, hlf, hd'⟩ := deposit_ok hok
    obtain ⟨hmem', hfreshreg⟩ := hid cc tx amount st rfl
    have hfind : alFind d.deposits tx = none := by
      cases hf : alFind d.deposits tx with
      | none => rfl
      | some r => exact absurd (hrec _ (alFind_mem hf)).2 hfreshreg
    subst hd'
    refine ⟨hcl, ?_, hhe, ?_, ?_⟩
    · dsimp only
      linarith
    · dsimp only
      rw [sumInflight_alInsert_none _ hfind]
      have hz : recInflight ⟨amount, .Applied⟩ = 0 := rfl
      rw [hz, hsum]
      ring
    · intro p hp
      dsimp only at hp
      rcases mem_alInsert hp with h | h
      · subst h
        exact ⟨hpos, hmem'⟩
      · exact ⟨(hrec p h).1, hsub _ (hrec p h).2⟩
  | Withdrawal cc tx amount =>
    obtain ⟨hc, hpos, hlf, hle, hd'⟩ := withdraw_ok hok
    subst hd'
    refine ⟨hcl, ?_, hhe, hsum, ?_⟩
    · dsimp only
      linarith
    · intro p hp
      dsimp only at hp
      exact ⟨(hrec p hp).1, hsub _ (hrec p hp).2⟩
  | Dispute cc tx =>
    obtain ⟨r, hfind, hst, hc, hpos, hlf, hle, hd'⟩ := dispute_ok hok
    subst hd'
    refine ⟨hcl, ?_, ?_, ?_, ?_⟩
    · dsimp only
      linarith
    · dsimp only
      linarith
    · dsimp only
      rw [sumInflight_setStatus _ hfind]
      have h1 : recInflight r = 0 := by simp [recInflight, hst]
      have h2 : recInflight ⟨r.amount, .Inflight⟩ = r.amount := rfl
      rw [h1, h2, hsum]
      ring
    · intro p hp
      dsimp only at hp
      obtain ⟨r0, hr0, hamt⟩ := mem_setStatus hp
      refine ⟨?_, hsub _ (hrec _ hr0).2⟩
      rw [hamt]
      exact (hrec _ hr0).1
  | Resolve cc tx =>
    obtain ⟨r, hfind, hst, hc, hpos, hlf, hle, hd'⟩ := resolve_ok hok
    subst hd'
    refine ⟨hcl, ?_, ?_, ?_, ?_⟩
    · dsimp only
      linarith
    · dsimp only
      linarith
    · dsimp only
      rw [sumInflight_setStatus _ hfind]
      have h1 : recInflight r = r.amount := by simp [recInflight, hst]
      have h2 : recInflight ⟨r.amount, .Resolved⟩ = 0 := rfl
      rw [h1, h2, hsum]
      ring
    · intro p hp
      dsimp only at hp
      obtain ⟨r0, hr0, hamt⟩ := mem_setStatus hp
      refine ⟨?_, hsub _ (hrec _ hr0).2⟩
      rw [hamt]
      exact (hrec _ hr0).1
  | Chargeback cc tx =>
    obtain ⟨r, hfind, hst, hc, hpos, hlf, hle, hd'⟩ := chargeback_ok hok
    subst hd'
    refine ⟨hcl, hav, ?_, ?_, ?_⟩
    · dsimp only
      linarith
    · dsimp only
      rw [sumInflight_setStatus _ hfind]
      have h1 : recInflight r = r.amount := by simp [recInflight, hst]
      have h2 : recInflight ⟨r.amount, .Voided⟩ = 0 := rfl
      rw [h1, h2, hsum]
      ring
    · intro p hp
      dsimp only at hp
      obtain ⟨r0, hr0, hamt⟩ := mem_setStatus hp
      refine ⟨?_, hsub _ (hrec _ hr0).2⟩
      rw [hamt]
      exact (hrec _ hr0).1

theorem goodEngine_step {e : Engine} (t : TransactionType) (hg : GoodEngine e) :
    GoodEngine (e.process t).1 := by
  by_cases hm : t.isMonetary = true
  · by_cases hmem : t.id ∈ e.transactions
    · rw [process_dup hm hmem]
      exact hg
    · intro c d hfind
      rw [process_fresh_accounts hm hmem] at hfind
      rw [process_fresh_transactions hm hmem]
      have hgacct : GoodAccount e.transactions t.client_id
          ((alFind e.accounts t.client_id).getD (AccountData.new t.client_id)) := by
        cases hf : alFind e.accounts t.client_id with
        | none => exact goodAccount_new _ _
        | some a0 => exact hg _ _ hf
      have hsub : ∀ x ∈ e.transactions, x ∈ e.transactions ++ [t.id] :=
        fun x hx => List.mem_append_left _ hx
      cases hr : AccountData.add_transaction
          ((alFind e.accounts t.client_id).getD (AccountData.new t.client_id)) t with
      | ok a2 =>
        simp only [hr] at hfind
        by_cases hcc : t.client_id = c
        · subst hcc
          rw [alFind_alInsert_self] at hfind
          injection hfind with hfind
          subst hfind
          refine good_add_transaction hgacct hsub ?_ hr
          intro cc tx amount st hteq
          subst hteq
          exact ⟨List.mem_append_right _ (List.mem_singleton_self _), hmem⟩
        · rw [alFind_alInsert_ne _ (Ne.symm hcc)] at hfind
          exact goodAccount_mono hsub (hg _ _ hfind)
      | error err =>
        simp only [hr] at hfind
        by_cases hcc : t.client_id = c
        · subst hcc
          rw [alFind_alInsert_self] at hfind
          injection hfind with hfind
          subst hfind
          exact goodAccount_mono hsub hgacct
        · rw [alFind_alInsert_ne _ (Ne.symm hcc)] at hfind
          exact goodAccount_mono hsub (hg _ _ hfind)
  · have hm' : t.isMonetary = false := by simpa using hm
    intro c d hfind
    rw [process_nonmonetary_transactions hm']
    cases hf : alFind e.accounts t.client_id with
    | none =>
      have he : (e.process t).1 = e := by
        cases t <;> simp_all [Engine.process, TransactionType.isMonetary]
      rw [he] at hfind
      exact hg c d hfind
    | some acct =>
      cases hr : acct.add_transaction t with
      | error err =>
        have he : (e.process t).1 = e := by
          cases t <;> simp_all [Engine.process, TransactionType.isMonetary]
        rw [he] at hfind
        exact hg c d hfind
      | ok a2 =>
        have hacc : (e.process t).1.accounts = alInsert e.accounts t.client_id a2 := by
          cases t <;> simp_all [Engine.process, TransactionType.isMonetary]
        rw [hacc] at hfind
        by_cases hcc : t.client_id = c
        · subst hcc
          rw [alFind_alInsert_self] at hfind
          injection hfind with hfind
          subst hfind
          refine good_add_transaction (hg _ _ hf) (fun x hx => hx) ?_ hr
          intro cc tx amount st hteq
          rw [hteq] at hm'
          simp [TransactionType.isMonetary] at hm'
        · rw [alFind_alInsert_ne _ (Ne.symm hcc)] at hfind
          exact hg _ _ hfind

theorem goodEngine_new : GoodEngine Engine.new := by
  intro c d hfind
  simp [Engine.new, alFind] at hfind

theorem goodEngine_runFrom (evs : List TransactionType) :
    ∀ e : Engine, GoodEngine e → GoodEngine (runFrom e evs) := by
  induction evs with
  | nil => intro e hg; exact hg
  | cons t ts ih => intro e hg; exact ih _ (goodEngine_step t hg)

theorem goodEngine_runEvents (evs : List TransactionType) :
    GoodEngine (runEvents evs) :=
  goodEngine_runFrom evs Engine.new goodEngine_new

theorem isDupErr_false {x : Except TransactionError Unit}
    (h : x ≠ .error .DuplicateTransaction) : isDupErr x = false := by
  cases x with
  | ok u => rfl
  | error err => cases err <;> first | rfl | exact absurd rfl h

theorem process_exists_step (e : Engine) (t : TransactionType) (c : ClientId) :
    (alFind (e.process t).1.accounts c).isSome =
      ((alFind e.accounts c).isSome ||
        (t.isMonetary && (t.client_id == c) && !(isDupErr (e.process t).2))) := by
  by_cases hm : t.isMonetary = true
  · by_cases hmem : t.id ∈ e.transactions
    · rw [process_dup hm hmem]
      simp [isDupErr]
    · have hnd : isDupErr (e.process t).2 = false :=
        isDupErr_false (process_fresh_ne_dup hm hmem)
      rw [hnd, process_fresh_accounts hm hmem]
      by_cases hcc : t.client_id = c
      · subst hcc
        rw [alFind_alInsert_self]
        simp [hm]
      · rw [alFind_alInsert_ne _ (Ne.symm hcc)]
        have hb : (t.client_id == c) = false := by simp [hcc]
        simp [hb]
  · have hm' : t.isMonetary = false := by simpa using hm
    cases hf : alFind e.accounts t.client_id with
    | none =>
      have he : (e.process t).1 = e := by
        cases t <;> simp_all [Engine.process, TransactionType.isMonetary]
      rw [he]
      simp [hm']
    | some acct =>
      cases hr : acct.add_transaction t with
      | error err =>
        have he : (e.process t).1 = e := by
          cases t <;> simp_all [Engine.process, TransactionType.isMonetary]
        rw [he]
        simp [hm']
      | ok a2 =>
        have hacc : (e.process t).1.accounts = alInsert e.accounts t.client_id a2 := by
          cases t <;> simp_all [Engine.process, TransactionType.isMonetary]
        rw [hacc]
        simp only [hm', Bool.false_and, Bool.or_false]
        by_cases hcc : t.client_id = c
        · subst hcc
          rw [alFind_alInsert_self, hf]
          rfl
        · rw [alFind_alInsert_ne _ (Ne.symm hcc)]

theorem runFrom_exists (evs : List TransactionType) :
    ∀ (e : Engine) (c : ClientId),
      (alFind (runFrom e evs).accounts c).isSome =
        ((alFind e.accounts c).isSome || claimedFrom c e evs) := by
  induction evs with
  | nil => intro e c; simp [runFrom, claimedFrom]
  | cons t ts ih =>
    intro e c
    show (alFind (runFrom (e.process t).1 ts).accounts c).isSome = _
    rw [ih (e.process t).1 c, process_exists_step]
    simp [claimedFrom, Bool.or_assoc]

theorem locked_step {e : Engine} {t : TransactionType} {c : ClientId}
    {d d' : AccountData}
    (hfind : alFind e.accounts c = some d) (hl : d.locked = true)
    (hfind' : alFind (e.process t).1.accounts c = some d') : d'.locked = true := by
  by_cases hm : t.isMonetary = true
  · by_cases hmem : t.id ∈ e.transactions
    · rw [process_dup hm hmem] at hfind'
      rw [hfind] at hfind'
      injection hfind' with h
      rw [← h]
      exact hl
    · rw [process_fresh_accounts hm hmem] at hfind'
      by_cases hcc : t.client_id = c
      · subst hcc
        have hacct : (alFind e.accounts t.client_id).getD (AccountData.new t.client_id) = d := by
          rw [hfind]
          rfl
        rw [hacct] at hfind'
        cases hr : d.add_transaction t with
        | ok a2 => exact absurd hr (add_transaction_locked hl t a2)
        | error err =>
          simp only [hr] at hfind'
          rw [alFind_alInsert_self] at hfind'
          injection hfind' with h
          rw [← h]
          exact hl
      · rw [alFind_alInsert_ne _ (Ne.symm hcc), hfind] at hfind'
        injection hfind' with h
        rw [← h]
        exact hl
  · have hm' : t.isMonetary = false := by simpa using hm
    cases hf : alFind e.accounts t.client_id with
    | none =>
      have he : (e.process t).1 = e := by
        cases t <;> simp_all [Engine.process, TransactionType.isMonetary]
      rw [he, hfind] at hfind'
      injection hfind' with h
      rw [← h]
      exact hl
    | some acct =>
      cases hr : acct.add_transaction t with
      | error err =>
        have he : (e.process t).1 = e := by
          cases t <;> simp_all [Engine.process, TransactionType.isMonetary]
        rw [he, hfind] at hfind'
        injection hfind' with h
        rw [← h]
        exact hl
      | ok a2 =>
        have hacc : (e.process t).1.accounts = alInsert e.accounts t.client_id a2 := by
          cases t <;> simp_all [Engine.process, TransactionType.isMonetary]
        rw [hacc] at hfind'
        by_cases hcc : t.client_id = c
        · subst hcc
          rw [hfind] at hf
          injection hf with hf
          rw [← hf] at hr
          exact absurd hr (add_transaction_locked hl t a2)
        · rw [alFind_alInsert_ne _ (Ne.symm hcc), hfind] at hfind'
          injection hfind' with h
          rw [← h]
          exact hl

theorem locked_runFrom (evs : List TransactionType) :
    ∀ (e : Engine) (c : ClientId) (d d' : AccountData),
      alFind e.accounts c = some d → d.locked = true →
      alFind (runFrom e evs).accounts c = some d' → d'.locked = true := by
  induction evs with
  | nil =>
    intro e c d d' h1 h2 h3
    simp only [runFrom] at h3
    rw [h1] at h3
    injection h3 with h
    rw [← h]
    exact h2
  | cons t ts ih =>
    intro e c d d' h1 h2 h3
    have hex : (alFind (e.process t).1.accounts c).isSome = true := by
      rw [process_exists_step]
      simp [h1]
    cases hmid : alFind (e.process t).1.accounts c with
    | none => rw [hmid] at hex; simp at hex
    | some dmid => exact ih _ c dmid d' hmid (locked_step h1 h2 hmid) h3

theorem process_nonmonetary_ok {e : Engine} {t : TransactionType}
    {acct a2 : AccountData}
    (hm : t.isMonetary = false) (hf : alFind e.accounts t.client_id = some acct)
    (hr : acct.add_transaction t = .ok a2) :
    e.process t = (⟨alInsert e.accounts t.client_id a2, e.transactions⟩, .ok ()) := by
  cases t <;> simp_all [Engine.process, TransactionType.isMonetary]

theorem deposit_intro {d : AccountData} {c : ClientId} {tx : TransactionId}
    {amt : Rat} {st : TransactionStatus}
    (hc : c = d.client_id) (hpos : 0 < amt) (hl : d.locked = false) :
    d.add_transaction (.Deposit c tx amt st) = .ok
      { d with
        available := d.available + amt
        deposits := alInsert d.deposits tx ⟨amt, .Applied⟩ } := by
  have h0 : d.add_transaction (.Deposit c tx amt st) =
      (if c ≠ d.client_id then Except.error TransactionError.ClientMismatch
       else
         match d.deposit amt with
         | Except.error e => Except.error e
         | Except.ok d1 =>
             Except.ok { d1 with deposits := alInsert d1.deposits tx ⟨amt, .Applied⟩ }) := rfl
  rw [h0, if_neg (by simp [hc])]
  have hh : d.deposit amt = .ok { d with available := d.available + amt } := by
    unfold AccountData.deposit
    rw [if_neg (not_le.mpr hpos), if_neg (by simp [hl])]
  rw [hh]

theorem resolve_intro {d : AccountData} {c : ClientId} {tx : TransactionId} {amt : Rat}
    (hc : c = d.client_id) (hf : alFind d.deposits tx = some ⟨amt, .Inflight⟩)
    (hpos : 0 < amt) (hl : d.locked = false) (hheld : amt ≤ d.held) :
    d.add_transaction (.Resolve c tx) = .ok
      { d with
        held := d.held - amt
        available := d.available + amt
        deposits := setStatus d.deposits tx .Resolved } := by
  have h0 : d.add_transaction (.Resolve c tx) =
      (if c ≠ d.client_id then Except.error TransactionError.ClientMismatch
       else
         match alFind d.deposits tx with
         | none => Except.error TransactionError.TransactionNotFound
         | some r =>
             if r.status ≠ TransactionStatus.Inflight then
               Except.error TransactionError.NotDisputed
             else
               match d.release_funds r.amount with
               | Except.error e => Except.error e
               | Except.ok d1 =>
                   Except.ok { d1 with deposits := setStatus d1.deposits tx .Resolved }) := rfl
  rw [h0, if_neg (by simp [hc]), hf]
  show (if (⟨amt, .Inflight⟩ : DepositRecord).status ≠ TransactionStatus.Inflight then
          Except.error TransactionError.NotDisputed
        else
          match d.release_funds (⟨amt, .Inflight⟩ : DepositRecord).amount with
          | Except.error e => Except.error e
          | Except.ok d1 =>
              Except.ok { d1 with deposits := setStatus d1.deposits tx .Resolved }) = _
  rw [if_neg (by simp)]
  have hh : d.release_funds amt = .ok
      { d with held := d.held - amt, available := d.available + amt } := by
    unfold AccountData.release_funds
    rw [if_neg (not_le.mpr hpos), if_neg (by simp [hl]), if_neg (not_lt.mpr hheld)]
  rw [show (⟨amt, .Inflight⟩ : DepositRecord).amount = amt from rfl, hh]

/-- Claim C1: for every finite sequence of events processed on a fresh engine,
every account that exists afterwards (and hence, instantiating with any
prefix, at any point during the sequence) satisfies `available ≥ 0`,
`held ≥ 0`, and `total = available + held`, where `total` is the snapshot
operation `Account::total`. -/
theorem claim_C1 (evs : List TransactionType) (c : ClientId) (d : AccountData)
    (hfind : (runEvents evs).get_account c = some d) :
    0 ≤ d.available ∧ 0 ≤ d.held ∧ d.total = d.available + d.held := by
  obtain ⟨-, h2, h3, -, -⟩ := goodEngine_runEvents evs c d hfind
  exact ⟨h2, h3, rfl⟩

/-- Witness for claim C1 at the concrete sequence `Deposit(1,1,100)`. -/
theorem claim_C1_witness :
    0 ≤ (AccountData.mk 1 100 0 false [(1, ⟨100, .Applied⟩)]).available ∧
    0 ≤ (AccountData.mk 1 100 0 false [(1, ⟨100, .Applied⟩)]).held ∧
    (AccountData.mk 1 100 0 false [(1, ⟨100, .Applied⟩)]).total =
      (AccountData.mk 1 100 0 false [(1, ⟨100, .Applied⟩)]).available +
        (AccountData.mk 1 100 0 false [(1, ⟨100, .Applied⟩)]).held :=
  claim_C1 [.Deposit 1 1 100 .Applied] 1 _ (by with_unfolding_all rfl)

/-- Claim C2: (1) if a monetary event succeeds at some position, every later
monetary event with the same transaction identifier fails with
`DuplicateTransaction` (hence at most one monetary event per identifier ever
succeeds); (2) non-monetary events never change the registry; (3) a monetary
event fails as a duplicate exactly when its identifier is already registered —
so a non-monetary event can never cause a later monetary event to fail as a
duplicate. -/
theorem claim_C2 :
    (∀ (pre mid : List TransactionType) (t1 t2 : TransactionType),
        t1.isMonetary = true → t2.isMonetary = true → t2.id = t1.id →
        ((runEvents pre).process t1).2 = .ok () →
        ((runFrom ((runEvents pre).process t1).1 mid).process t2).2 =
          .error .DuplicateTransaction) ∧
    (∀ (e : Engine) (t : TransactionType), t.isMonetary = false →
        (e.process t).1.transactions = e.transactions) ∧
    (∀ (e : Engine) (t : TransactionType), t.isMonetary = true →
        ((e.process t).2 = .error .DuplicateTransaction ↔ t.id ∈ e.transactions)) := by
  refine ⟨?_, ?_, ?_⟩
  · intro pre mid t1 t2 hm1 hm2 hid hok
    have hfresh : t1.id ∉ (runEvents pre).transactions := by
      intro hmem
      rw [process_dup hm1 hmem] at hok
      exact absurd hok (by simp)
    have h1 : t1.id ∈ ((runEvents pre).process t1).1.transactions :=
      process_fresh_mem hm1 hfresh
    have h2 : t1.id ∈ (runFrom ((runEvents pre).process t1).1 mid).transactions :=
      runFrom_registry_mono mid _ _ h1
    have h3 : t2.id ∈ (runFrom ((runEvents pre).process t1).1 mid).transactions := by
      rw [hid]
      exact h2
    rw [process_dup hm2 h3]
  · intro e t hm
    exact process_nonmonetary_transactions hm
  · intro e t hm
    exact process_dup_iff hm

/-- Witness for claim C2: after a successful `Deposit(1,1,100)`, the
withdrawal `Withdrawal(1,1,50)` reusing identifier 1 is rejected. -/
theorem claim_C2_witness :
    ((runFrom ((runEvents []).process (.Deposit 1 1 100 .Applied)).1 []).process
        (.Withdrawal 1 1 50)).2 = .error .DuplicateTransaction :=
  claim_C2.1 [] [] (.Deposit 1 1 100 .Applied) (.Withdrawal 1 1 50) rfl rfl rfl
    (by with_unfolding_all rfl)

/-- Claim C3: for a monetary event whose identifier is fresh (the registry
claim succeeds) but whose account apply fails with some error, the identifier
is nevertheless registered, and re-submitting any monetary event with the same
identifier after any further events fails with `DuplicateTransaction`. -/
theorem claim_C3 (e : Engine) (t : TransactionType) (err : TransactionError)
    (hm : t.isMonetary = true) (hfresh : t.id ∉ e.transactions)
    (hfail : (e.process t).2 = .error err) :
    t.id ∈ (e.process t).1.transactions ∧
    ∀ (evs : List TransactionType) (t' : TransactionType),
      t'.isMonetary = true → t'.id = t.id →
      ((runFrom (e.process t).1 evs).process t').2 = .error .DuplicateTransaction := by
  refine ⟨process_fresh_mem hm hfresh, ?_⟩
  intro evs t' hm' hid
  have h2 : t.id ∈ (runFrom (e.process t).1 evs).transactions :=
    runFrom_registry_mono evs _ _ (process_fresh_mem hm hfresh)
  have h3 : t'.id ∈ (runFrom (e.process t).1 evs).transactions := by
    rw [hid]
    exact h2
  rw [process_dup hm' h3]

/-- Witness for claim C3: `Deposit(1,1,0)` fails with `InvalidAmount` on a
fresh engine, yet the later valid `Deposit(1,1,50)` is rejected as a
duplicate. -/
theorem claim_C3_witness :
    ((runFrom (Engine.new.process (.Deposit 1 1 0 .Applied)).1 []).process
        (.Deposit 1 1 50 .Applied)).2 = .error .DuplicateTransaction :=
  (claim_C3 Engine.new (.Deposit 1 1 0 .Applied) .InvalidAmount rfl
      (by with_unfolding_all decide) (by with_unfolding_all rfl)).2
    [] (.Deposit 1 1 50 .Applied) rfl rfl

/-- Counterexample to claim C4 as stated: on a fresh engine the single event
`Deposit(client 1, tx 1, amount 0)` fails with `InvalidAmount`, so no monetary
event for client 1 ever completes successfully; yet `get_account` returns a
snapshot for client 1, because `Engine::process` creates the account with
`entry(..).or_insert_with` before `add_transaction` rejects the deposit. -/
theorem claim_C4_counterexample :
    ((Engine.new.process (.Deposit 1 1 0 .Applied)).2 = .error .InvalidAmount) ∧
    ((runEvents [.Deposit 1 1 0 .Applied]).get_account 1).isSome = true :=
  ⟨by with_unfolding_all rfl, by with_unfolding_all rfl⟩

/-- Claim C4 (amended): an account for client `c` exists exactly when at least
one monetary event for `c` in the processed sequence passed the duplicate
check (was not rejected as `DuplicateTransaction`) — regardless of whether its
subsequent account apply succeeded; and once an account exists it continues to
exist after every subsequent operation. -/
theorem claim_C4 :
    (∀ (evs : List TransactionType) (c : ClientId),
        ((runEvents evs).get_account c).isSome = claimedFrom c Engine.new evs) ∧
    (∀ (evs evs' : List TransactionType) (c : ClientId),
        ((runEvents evs).get_account c).isSome = true →
        ((runEvents (evs ++ evs')).get_account c).isSome = true) := by
  constructor
  · intro evs c
    have h := runFrom_exists evs Engine.new c
    simpa [Engine.new, alFind, Engine.get_account] using h
  · intro evs evs' c h
    unfold Engine.get_account runEvents at h ⊢
    rw [runFrom_append, runFrom_exists, h]
    simp

/-- Witness for claim C4: the account created by `Deposit(1,1,100)` still
exists after a further `Withdrawal(1,2,30)`. -/
theorem claim_C4_witness :
    ((runEvents ([.Deposit 1 1 100 .Applied] ++ [.Withdrawal 1 2 30])).get_account
        1).isSome = true :=
  claim_C4.2 [.Deposit 1 1 100 .Applied] [.Withdrawal 1 2 30] 1
    (by with_unfolding_all rfl)

/-- Counterexample to claim C5 as stated: after
`Deposit(1,1,100); Withdrawal(1,2,60); Deposit(1,3,30); Dispute(1,3);
Chargeback(1,3)` the account is locked with `available = 40` and still holds
the Applied deposit record for tx 1 of amount 100; although
`available < amount`, `Dispute(1,1)` fails with `AccountLocked`, not
`InsufficientFunds` — the locked check precedes the funds check. -/
theorem claim_C5_counterexample :
    ((runEvents [.Deposit 1 1 100 .Applied, .Withdrawal 1 2 60,
        .Deposit 1 3 30 .Applied, .Dispute 1 3, .Chargeback 1 3]).get_account 1 =
      some ⟨1, 40, 0, true, [(1, ⟨100, .Applied⟩), (3, ⟨30, .Voided⟩)]⟩) ∧
    ((40 : Rat) < 100) ∧
    (((runEvents [.Deposit 1 1 100 .Applied, .Withdrawal 1 2 60,
        .Deposit 1 3 30 .Applied, .Dispute 1 3, .Chargeback 1 3]).process
          (.Dispute 1 1)).2 = .error .AccountLocked) :=
  ⟨by with_unfolding_all rfl, by with_unfolding_all decide,
    by with_unfolding_all rfl⟩

/-- Claim C5 (amended): on an unlocked account state with non-negative
available balance containing a deposit record with status `Applied` and amount
`a`, a Dispute referencing that record fails with `InsufficientFunds` whenever
`available < a` (on a locked account it fails with `AccountLocked` instead,
state equally unchanged); concretely, after
`Deposit(1,1,100); Withdrawal(1,2,100)` on a fresh engine, `Dispute(1,1)`
returns `InsufficientFunds` and leaves the engine unchanged, the account
remaining `{available 0, held 0, locked false}`. -/
theorem claim_C5 (d : AccountData) (tx : TransactionId) (r : DepositRecord)
    (hfind : alFind d.deposits tx = some r) (hst : r.status = .Applied)
    (hlock : d.locked = false) (hav : 0 ≤ d.available)
    (hlt : d.available < r.amount) :
    d.add_transaction (.Dispute d.client_id tx) = .error .InsufficientFunds ∧
    (((runEvents [.Deposit 1 1 100 .Applied, .Withdrawal 1 2 100]).process
        (.Dispute 1 1)).2 = .error .InsufficientFunds ∧
      ((runEvents [.Deposit 1 1 100 .Applied, .Withdrawal 1 2 100]).process
        (.Dispute 1 1)).1 = runEvents [.Deposit 1 1 100 .Applied, .Withdrawal 1 2 100] ∧
      (runEvents [.Deposit 1 1 100 .Applied, .Withdrawal 1 2 100]).get_account 1 =
        some ⟨1, 0, 0, false, [(1, ⟨100, .Applied⟩)]⟩) := by
  constructor
  · have h0 : d.add_transaction (.Dispute d.client_id tx) =
        (if d.client_id ≠ d.client_id then Except.error TransactionError.ClientMismatch
         else
           match alFind d.deposits tx with
           | none => Except.error TransactionError.TransactionNotFound
           | some r =>
               if r.status ≠ TransactionStatus.Applied then
                 Except.error TransactionError.AlreadyDisputed
               else
                 match d.hold_funds r.amount with
                 | Except.error e => Except.error e
                 | Except.ok d1 =>
                     Except.ok { d1 with deposits := setStatus d1.deposits tx .Inflight }) :=
      rfl
    rw [h0, if_neg (by simp), hfind]
    show (if r.status ≠ TransactionStatus.Applied then
            Except.error TransactionError.AlreadyDisputed
          else
            match d.hold_funds r.amount with
            | Except.error e => Except.error e
            | Except.ok d1 =>
                Except.ok { d1 with deposits := setStatus d1.deposits tx .Inflight }) = _
    rw [if_neg (by simp [hst])]
    have hh : d.hold_funds r.amount = .error .InsufficientFunds := by
      unfold AccountData.hold_funds
      rw [if_neg (not_le.mpr (by linarith)), if_neg (by simp [hlock]), if_pos hlt]
    rw [hh]
  · exact ⟨by with_unfolding_all rfl, by with_unfolding_all rfl,
      by with_unfolding_all rfl⟩

/-- Witness for claim C5 at a concrete unlocked account with an Applied
deposit record of amount 100 and zero available balance. -/
theorem claim_C5_witness :
    (AccountData.mk 1 0 0 false [(1, ⟨100, .Applied⟩)]).add_transaction
        (.Dispute 1 1) = .error .InsufficientFunds :=
  (claim_C5 (AccountData.mk 1 0 0 false [(1, ⟨100, .Applied⟩)]) 1 ⟨100, .Applied⟩
      (by with_unfolding_all rfl) rfl rfl (by with_unfolding_all decide)
      (by with_unfolding_all decide)).1

/-- Claim C6: in every engine-reachable account state the sum of the amounts
of `Inflight` deposit records equals `held`; consequently a Resolve
referencing an `Inflight` record on an unlocked reachable account never
returns `InsufficientFunds` (the `held < amount` branch of Resolve is
unreachable). -/
theorem claim_C6 (evs : List TransactionType) (c : ClientId) (d : AccountData)
    (hfind : (runEvents evs).get_account c = some d) :
    sumInflight d.deposits = d.held ∧
    ∀ (tx : TransactionId) (amt : Rat),
      d.locked = false → alFind d.deposits tx = some ⟨amt, .Inflight⟩ →
      ((runEvents evs).process (.Resolve c tx)).2 ≠ .error .InsufficientFunds := by
  obtain ⟨hcl, hav, hhe, hsum, hrec⟩ := goodEngine_runEvents evs c d hfind
  refine ⟨hsum, ?_⟩
  intro tx amt hlock hf
  have hpos : 0 < amt := (hrec _ (alFind_mem hf)).1
  have hheld : amt ≤ d.held := by
    have hle := le_sumInflight hf rfl fun p hp => le_of_lt (hrec p hp).1
    rw [hsum] at hle
    exact hle
  have hres : d.add_transaction (.Resolve c tx) = .ok
      { d with
        held := d.held - amt
        available := d.available + amt
        deposits := setStatus d.deposits tx .Resolved } :=
    resolve_intro hcl.symm hf hpos hlock hheld
  have hfc : alFind (runEvents evs).accounts
      (TransactionType.Resolve c tx).client_id = some d := hfind
  rw [@process_nonmonetary_ok (runEvents evs) (TransactionType.Resolve c tx) d _ rfl hfc hres]
  simp

/-- Witness for claim C6 at the reachable state after
`Deposit(1,1,100); Dispute(1,1)`. -/
theorem claim_C6_witness :
    sumInflight (AccountData.mk 1 0 100 false [(1, ⟨100, .Inflight⟩)]).deposits =
      (AccountData.mk 1 0 100 false [(1, ⟨100, .Inflight⟩)]).held ∧
    ((runEvents [.Deposit 1 1 100 .Applied, .Dispute 1 1]).process
        (.Resolve 1 1)).2 ≠ .error .InsufficientFunds := by
  have h := claim_C6 [.Deposit 1 1 100 .Applied, .Dispute 1 1] 1
    (AccountData.mk 1 0 100 false [(1, ⟨100, .Inflight⟩)])
    (by with_unfolding_all rfl)
  exact ⟨h.1, h.2 1 100 rfl (by with_unfolding_all rfl)⟩

/-- Claim C7: a successful Dispute on `tx` immediately followed by a
successful Resolve on the same `tx` restores the `(available, held, locked)`
triple to its pre-Dispute value and leaves the deposit record for `tx` with
status `Resolved`. -/
theorem claim_C7 (d d1 d2 : AccountData) (c c' : ClientId) (tx : TransactionId)
    (r : DepositRecord) (hr : alFind d.deposits tx = some r)
    (h1 : d.add_transaction (.Dispute c tx) = .ok d1)
    (h2 : d1.add_transaction (.Resolve c' tx) = .ok d2) :
    d2.available = d.available ∧ d2.held = d.held ∧ d2.locked = d.locked ∧
    alFind d2.deposits tx = some ⟨r.amount, .Resolved⟩ := by
  obtain ⟨r1, hfind1, hst1, hc1, hpos1, hlf1, hle1, hd1⟩ := dispute_ok h1
  rw [hr] at hfind1
  injection hfind1 with he1
  subst he1
  obtain ⟨r2, hfind2, hst2, hc2, hpos2, hlf2, hle2, hd2⟩ := resolve_ok h2
  subst hd1
  dsimp only at hfind2
  rw [alFind_setStatus_self _ hr] at hfind2
  injection hfind2 with he2
  subst he2
  subst hd2
  refine ⟨?_, ?_, rfl, ?_⟩
  · dsimp only
    ring
  · dsimp only
    ring
  · dsimp only
    rw [alFind_setStatus_self _ (alFind_setStatus_self _ hr)]

/-- Witness for claim C7 at a concrete account holding an Applied deposit of
100: Dispute then Resolve restores `(available, held, locked)` and marks the
record Resolved. -/
theorem claim_C7_witness :
    (AccountData.mk 1 100 0 false [(1, ⟨100, .Resolved⟩)]).available =
        (AccountData.mk 1 100 0 false [(1, ⟨100, .Applied⟩)]).available ∧
    (AccountData.mk 1 100 0 false [(1, ⟨100, .Resolved⟩)]).held =
        (AccountData.mk 1 100 0 false [(1, ⟨100, .Applied⟩)]).held ∧
    (AccountData.mk 1 100 0 false [(1, ⟨100, .Resolved⟩)]).locked =
        (AccountData.mk 1 100 0 false [(1, ⟨100, .Applied⟩)]).locked ∧
    alFind (AccountData.mk 1 100 0 false [(1, ⟨100, .Resolved⟩)]).deposits 1 =
      some ⟨100, .Resolved⟩ :=
  claim_C7 (AccountData.mk 1 100 0 false [(1, ⟨100, .Applied⟩)])
    (AccountData.mk 1 0 100 false [(1, ⟨100, .Inflight⟩)])
    (AccountData.mk 1 100 0 false [(1, ⟨100, .Resolved⟩)]) 1 1 1 ⟨100, .Applied⟩
    (by with_unfolding_all rfl) (by with_unfolding_all rfl)
    (by with_unfolding_all rfl)

/-- Claim C8: a successful Chargeback on an `Inflight` record of amount `a` in
an unlocked account decreases `held` by exactly `a`, sets `locked`, marks the
record `Voided`, and leaves `available` and every other deposit record
unchanged. -/
theorem claim_C8 (d d' : AccountData) (c : ClientId) (tx : TransactionId)
    (amt : Rat) (hr : alFind d.deposits tx = some ⟨amt, .Inflight⟩)
    (hl : d.locked = false)
    (hok : d.add_transaction (.Chargeback c tx) = .ok d') :
    d'.held = d.held - amt ∧ d'.locked = true ∧ d'.available = d.available ∧
    alFind d'.deposits tx = some ⟨amt, .Voided⟩ ∧
    ∀ tx' : TransactionId, tx' ≠ tx →
      alFind d'.deposits tx' = alFind d.deposits tx' := by
  obtain ⟨r, hfind, hst, hc, hpos, hlf, hle, hd'⟩ := chargeback_ok hok
  rw [hr] at hfind
  injection hfind with he
  subst he
  subst hd'
  refine ⟨rfl, rfl, rfl, ?_, ?_⟩
  · dsimp only
    rw [alFind_setStatus_self _ hr]
  · intro tx' hne
    dsimp only
    rw [alFind_setStatus_ne _ hne]

/-- Witness for claim C8 at a concrete account with an Inflight deposit of 100
and a second Applied deposit of 7: the untouched record at tx 2 is preserved
by the chargeback on tx 1. -/
theorem claim_C8_witness :
    alFind (AccountData.mk 1 5 0 true
        [(1, ⟨100, .Voided⟩), (2, ⟨7, .Applied⟩)]).deposits 2 =
      alFind (AccountData.mk 1 5 100 false
        [(1, ⟨100, .Inflight⟩), (2, ⟨7, .Applied⟩)]).deposits 2 :=
  (claim_C8 (AccountData.mk 1 5 100 false [(1, ⟨100, .Inflight⟩), (2, ⟨7, .Applied⟩)])
      (AccountData.mk 1 5 0 true [(1, ⟨100, .Voided⟩), (2, ⟨7, .Applied⟩)]) 1 1 100
      (by with_unfolding_all rfl) rfl (by with_unfolding_all rfl)).2.2.2.2 2
    (by decide)

/-- Claim C9: the `locked` flag is monotone across engine operations — if an
account is locked in some engine state, it is still locked in the state
reached after processing any further sequence of events (no operation,
successful or failed, ever resets it). -/
theorem claim_C9 (e : Engine) (evs : List TransactionType) (c : ClientId)
    (d d' : AccountData) (hfind : e.get_account c = some d)
    (hl : d.locked = true) (hfind' : (runFrom e evs).get_account c = some d') :
    d'.locked = true :=
  locked_runFrom evs e c d d' hfind hl hfind'

/-- Witness for claim C9: the account locked by
`Deposit(1,1,100); Dispute(1,1); Chargeback(1,1)` is still locked after a
further `Deposit(1,2,10)` (which fails with `AccountLocked`). -/
theorem claim_C9_witness :
    (AccountData.mk 1 0 0 true [(1, ⟨100, .Voided⟩)]).locked = true :=
  claim_C9 (runEvents [.Deposit 1 1 100 .Applied, .Dispute 1 1, .Chargeback 1 1])
    [.Deposit 1 2 10 .Applied] 1
    (AccountData.mk 1 0 0 true [(1, ⟨100, .Voided⟩)])
    (AccountData.mk 1 0 0 true [(1, ⟨100, .Voided⟩)])
    (by with_unfolding_all rfl) rfl (by with_unfolding_all rfl)

/-- Claim C10: `Account::add_transaction` performs no account-scope
uniqueness check on deposit identifiers — called directly (bypassing the
engine registry) on an unlocked account with two deposits carrying the same
identifier and positive amounts, both succeed, `available` is credited with
both amounts, and the second `DepositRecord` overwrites the first. -/
theorem claim_C10 (d : AccountData) (tx : TransactionId) (a1 a2 : Rat)
    (hl : d.locked = false) (h1 : 0 < a1) (h2 : 0 < a2) :
    (d.add_transaction (.Deposit d.client_id tx a1 .Applied)).bind
        (fun d1 => d1.add_transaction (.Deposit d.client_id tx a2 .Applied)) =
      .ok { d with
            available := d.available + a1 + a2
            deposits := alInsert (alInsert d.deposits tx ⟨a1, .Applied⟩) tx
              ⟨a2, .Applied⟩ } ∧
    alFind (alInsert (alInsert d.deposits tx ⟨a1, .Applied⟩) tx ⟨a2, .Applied⟩) tx =
      some ⟨a2, .Applied⟩ := by
  constructor
  · have hd1 := @deposit_intro d d.client_id tx a1 .Applied rfl h1 hl
    rw [hd1]
    have hd2 := @deposit_intro
      { d with
        available := d.available + a1
        deposits := alInsert d.deposits tx ⟨a1, .Applied⟩ }
      d.client_id tx a2 .Applied rfl h2 hl
    exact hd2
  · exact alFind_alInsert_self _ _ _

/-- Witness for claim C10 on a fresh account for client 7 with duplicate
deposits of 3 and 4 at identifier 1. -/
theorem claim_C10_witness :
    ((AccountData.new 7).add_transaction
        (.Deposit (AccountData.new 7).client_id 1 3 .Applied)).bind
      (fun d1 => d1.add_transaction
        (.Deposit (AccountData.new 7).client_id 1 4 .Applied)) =
      .ok { AccountData.new 7 with
            available := (AccountData.new 7).available + 3 + 4
            deposits := alInsert (alInsert (AccountData.new 7).deposits 1
              ⟨3, .Applied⟩) 1 ⟨4, .Applied⟩ } :=
  (claim_C10 (AccountData.new 7) 1 3 4 rfl (by with_unfolding_all decide)
      (by with_unfolding_all decide)).1

end Ledger
